import Mathlib

/-!
Verification of the obsctl-reloader reconciliation script (src/run.py).

The script has two pieces of logic that the claims are about:

* the Tenant Aggregator (`get_tenant` and `get_tenant_rules`), a pure
  transformation from a list of PrometheusRule resources to a per-tenant
  mapping of rule groups;
* the glue around it: the Rule Source Reader (`get_prometheus_rules`)
  and the per-tenant publish loop in `main` (obsctl context add, login,
  switch, set rules, inside a try/finally whose finally removes the
  context; there is no except clause).

Rule groups are opaque pass-through values, so the embedding is
parametric in a type of groups.  Python dicts keep insertion order, so a
tenant mapping is embedded as an association list with setdefault
semantics (new keys appended at the end, first matching key updated).
-/

set_option autoImplicit false

namespace ObsctlReloader

variable {G : Type}

/-- A PrometheusRule resource as the script reads it: `metadata.name`
(always accessed, modelled as present), `metadata.labels` (optional
string-to-string dictionary, modelled as an association list) and
`spec.groups` (optional list of opaque group values; `none` models the
field being absent, which the script accesses without a guard). -/
structure RuleResource (G : Type) where
  name : String
  labels : Option (List (String × String))
  spec_groups : Option (List G)
deriving DecidableEq

/-- The output of the Aggregator: a Python dict from tenant name to the
value of its single `groups` field, embedded as an insertion-ordered
association list. -/
abbrev TenantMap (G : Type) := List (String × List G)

/-- The only error the Aggregator itself raises: the unguarded access
`rule["spec"]["groups"]` raising `KeyError`, called `MalformedRule` by
the spec; it carries the name of the offending resource. -/
inductive AggError where
  | malformedRule (name : String)
deriving DecidableEq

/-- Python dict lookup on the labels dictionary. -/
def lookupLabel (key : String) : List (String × String) → Option String
  | [] => none
  | (k, v) :: rest => if k = key then some v else lookupLabel key rest

/-- Embedding of `get_tenant` (src/run.py lines 49-58): try to read
`metadata.labels.tenant`; a missing `labels` dict or a missing `tenant`
key raises `KeyError`, caught and turned into `None`. -/
def get_tenant (r : RuleResource G) : Option String :=
  match r.labels with
  | none => none
  | some ls => lookupLabel "tenant" ls

/-- Embedding of `all_tenant_rules.setdefault(tenant, {"groups": []})`
followed by `tenant_rules["groups"].extend(gs)`: if the tenant is
already a key, extend its groups list in place; otherwise append a new
entry at the end of the dict. -/
def setdefaultExtend (m : TenantMap G) (t : String) (gs : List G) : TenantMap G :=
  match m with
  | [] => [(t, gs)]
  | (k, v) :: rest =>
    if k = t then (k, v ++ gs) :: rest
    else (k, v) :: setdefaultExtend rest t gs

/-- The loop body of `get_tenant_rules` (src/run.py lines 61-78), with
the accumulated dict made explicit.  A resource whose tenant is falsy
(`None` or the empty string: `if not tenant: continue`) is skipped; for
any other resource the unguarded access `rule["spec"]["groups"]` either
yields the groups list or raises (`MalformedRule`), aborting the whole
aggregation. -/
def get_tenant_rules_aux (acc : TenantMap G) :
    List (RuleResource G) → Except AggError (TenantMap G)
  | [] => Except.ok acc
  | r :: rest =>
    match get_tenant r with
    | none => get_tenant_rules_aux acc rest
    | some t =>
      if t = "" then get_tenant_rules_aux acc rest
      else
        match r.spec_groups with
        | none => Except.error (AggError.malformedRule r.name)
        | some gs => get_tenant_rules_aux (setdefaultExtend acc t gs) rest

/-- Embedding of `get_tenant_rules`: fold the loop body over the input
resources starting from the empty dict. -/
def get_tenant_rules (rules : List (RuleResource G)) :
    Except AggError (TenantMap G) :=
  get_tenant_rules_aux [] rules

/- ### Rule Source Reader -/

/-- The error taxonomy of the Reader: `sourceUnavailable` when the
external `oc` call fails (non-zero exit via `check=True`, or a timeout
exception from the subprocess call), `malformedResponse` when its
output is not JSON or lacks the top-level `items` field. -/
inductive ReaderError where
  | sourceUnavailable
  | malformedResponse
deriving DecidableEq

/-- Abstraction of the stdout of the `oc get prometheusrules -o json`
call: either not valid JSON, or a JSON document whose top-level `items`
field is present (a list of rule resources) or absent. -/
inductive JsonDoc (G : Type) where
  | invalid
  | object (items : Option (List (RuleResource G)))

/-- Abstraction of one invocation of the external listing command:
either the call fails (non-zero exit or timeout, raising out of
`run`) or it succeeds and produces some output. -/
inductive OcResult (G : Type) where
  | failure
  | success (doc : JsonDoc G)

/-- Embedding of `run` (src/run.py lines 34-39) for the listing call:
`subprocess.run(..., check=True)` raises when the call fails, which the
caller does not catch. -/
def run_oc (call : OcResult G) : Except ReaderError (JsonDoc G) :=
  match call with
  | OcResult.failure => Except.error ReaderError.sourceUnavailable
  | OcResult.success doc => Except.ok doc

/-- Embedding of `json.loads(result)["items"]` in
`get_prometheus_rules` (src/run.py lines 42-46): invalid JSON raises
`JSONDecodeError` and a missing `items` key raises `KeyError`, both
malformed-response failures; otherwise the `items` list is returned. -/
def parse_items (doc : JsonDoc G) : Except ReaderError (List (RuleResource G)) :=
  match doc with
  | JsonDoc.invalid => Except.error ReaderError.malformedResponse
  | JsonDoc.object none => Except.error ReaderError.malformedResponse
  | JsonDoc.object (some items) => Except.ok items

/-- Embedding of `get_prometheus_rules`: run the external call, then
parse its output. -/
def get_prometheus_rules (call : OcResult G) :
    Except ReaderError (List (RuleResource G)) :=
  match run_oc call with
  | Except.error e => Except.error e
  | Except.ok doc => parse_items doc

/- ### Spec-side helper functions used to state the claims -/

/-- Dict lookup on the Aggregator output. -/
def lookupTenant (t : String) : TenantMap G → Option (List G)
  | [] => none
  | (k, v) :: rest => if k = t then some v else lookupTenant t rest

/-- The groups list of a resource, with `[]` for an absent field (only
used where the field is separately proved to be present). -/
def groupsOf (r : RuleResource G) : List G :=
  r.spec_groups.getD []

/-- The resources whose tenant label is exactly `t`, in input order. -/
def tenantResources (t : String) : List (RuleResource G) → List (RuleResource G)
  | [] => []
  | r :: rest =>
    if get_tenant r = some t then r :: tenantResources t rest
    else tenantResources t rest

/-- What the spec says the bundle of tenant `t` must be: no entry when
no resource is labeled `t`, otherwise the concatenation of the groups
lists of the resources labeled `t`, in input order. -/
def tenantConcat (t : String) (rules : List (RuleResource G)) : Option (List G) :=
  match tenantResources t rules with
  | [] => none
  | rs => some (List.flatten (rs.map groupsOf))

/-- How one prefix of the input extends the entry of a fixed tenant:
starting from entry `o`, processing resources whose groups lists are
`gss` (already restricted to that tenant). -/
def extendEntry (o : Option (List G)) (rs : List (RuleResource G)) : Option (List G) :=
  match o with
  | some v => some (v ++ List.flatten (rs.map groupsOf))
  | none =>
    match rs with
    | [] => none
    | rs => some (List.flatten (rs.map groupsOf))

/-- The key list of the output mapping, in insertion order. -/
def keys (m : TenantMap G) : List String :=
  m.map Prod.fst

/-- The tenant values the loop actually accepts (label present and not
the empty string), in input order, with repetitions. -/
def truthyTenants : List (RuleResource G) → List String
  | [] => []
  | r :: rest =>
    match get_tenant r with
    | none => truthyTenants rest
    | some t => if t = "" then truthyTenants rest else t :: truthyTenants rest

/-- All tenant label values among resources that carry the label at
all, in input order, with repetitions (this includes the empty string,
which the loop rejects). -/
def labeledTenants : List (RuleResource G) → List String
  | [] => []
  | r :: rest =>
    match get_tenant r with
    | none => labeledTenants rest
    | some t => t :: labeledTenants rest

/-- The input with the resources that carry no tenant label removed. -/
def filterLabeled : List (RuleResource G) → List (RuleResource G)
  | [] => []
  | r :: rest =>
    match get_tenant r with
    | none => filterLabeled rest
    | some _ => r :: filterLabeled rest

/-- The input with the resources whose tenant label is the empty string
removed. -/
def dropEmptyLabeled : List (RuleResource G) → List (RuleResource G)
  | [] => []
  | r :: rest =>
    if get_tenant r = some "" then dropEmptyLabeled rest
    else r :: dropEmptyLabeled rest

/-- The keys of an aggregation result, with `[]` for a failed run. -/
def resultKeys (e : Except AggError (TenantMap G)) : List String :=
  match e with
  | Except.ok m => keys m
  | Except.error _ => []

/- ### The per-tenant publish loop of `main` -/

/-- One invocation of the external `obsctl` tool inside the per-tenant
loop of `main` (src/run.py lines 175-182). -/
inductive Action (G : Type) where
  | contextAdd
  | login (tenant : String)
  | contextSwitch (tenant : String)
  | setRules (tenant : String) (groups : List G)
  | contextRemove
deriving DecidableEq

/-- An oracle saying which external invocations succeed (`true`) and
which raise (`false`); the script itself imposes no timeout and treats
the tool as a black box, so its behavior is a free parameter. -/
abbrev Oracle (G : Type) := Action G → Bool

/-- The try block of the per-tenant loop: context add, login, context
switch, rule submission, each attempted only if every earlier step
succeeded (the first raising call aborts the block).  Returns the trace
of attempted invocations and whether the block completed. -/
def tryBody (oracle : Oracle G) (t : String) (gs : List G) :
    List (Action G) × Bool :=
  if oracle Action.contextAdd = false then
    ([Action.contextAdd], false)
  else if oracle (Action.login t) = false then
    ([Action.contextAdd, Action.login t], false)
  else if oracle (Action.contextSwitch t) = false then
    ([Action.contextAdd, Action.login t, Action.contextSwitch t], false)
  else if oracle (Action.setRules t gs) = false then
    ([Action.contextAdd, Action.login t, Action.contextSwitch t,
      Action.setRules t gs], false)
  else
    ([Action.contextAdd, Action.login t, Action.contextSwitch t,
      Action.setRules t gs], true)

/-- One iteration of the per-tenant loop: the try block followed by the
finally block, which always attempts `obsctl context rm` exactly once,
whatever the try block did.  The iteration completes normally only if
both the try block and the removal succeed (an exception raised in
either propagates, since the statement has no except clause). -/
def publishTenant (oracle : Oracle G) (t : String) (gs : List G) :
    List (Action G) × Bool :=
  let p := tryBody oracle t gs
  (p.1 ++ [Action.contextRemove], p.2 && oracle Action.contextRemove)

/-- The whole per-tenant loop of one reconciliation cycle: tenants are
processed in order; an iteration that raises (after its finally block
ran) propagates the exception, so the remaining tenants are not
processed. -/
def publishAll (oracle : Oracle G) :
    List (String × List G) → List (Action G) × Bool
  | [] => ([], true)
  | (t, gs) :: rest =>
    let p := publishTenant oracle t gs
    if p.2 then
      let q := publishAll oracle rest
      (p.1 ++ q.1, q.2)
    else
      (p.1, false)

/-- Number of context-removal invocations in a trace. -/
def countRemove : List (Action G) → Nat
  | [] => 0
  | Action.contextRemove :: rest => countRemove rest + 1
  | _ :: rest => countRemove rest

/-- Number of context-add invocations in a trace; a tenant iteration
begins with exactly one context add, so this counts the tenants whose
publish sequence was entered. -/
def countAdd : List (Action G) → Nat
  | [] => 0
  | Action.contextAdd :: rest => countAdd rest + 1
  | _ :: rest => countAdd rest

/-- Number of login invocations for a given tenant in a trace. -/
def countLogin (t : String) : List (Action G) → Nat
  | [] => 0
  | Action.login t' :: rest =>
    if t' = t then countLogin t rest + 1 else countLogin t rest
  | _ :: rest => countLogin t rest

end ObsctlReloader

namespace ObsctlReloader

variable {G : Type}

/- ### Helper lemmas about the aggregation loop -/

theorem lookupTenant_setdefault_self (m : TenantMap G) (t : String) (gs : List G) :
    lookupTenant t (setdefaultExtend m t gs) =
      some ((lookupTenant t m).getD [] ++ gs) := by
  induction m with
  | nil => simp [setdefaultExtend, lookupTenant]
  | cons p rest ih =>
    obtain ⟨k, v⟩ := p
    by_cases hk : k = t
    · subst hk
      simp [setdefaultExtend, lookupTenant]
    · simp [setdefaultExtend, lookupTenant, hk, ih]

theorem lookupTenant_setdefault_other (m : TenantMap G) {t t' : String}
    (h : t ≠ t') (gs : List G) :
    lookupTenant t (setdefaultExtend m t' gs) = lookupTenant t m := by
  have hts : ¬ (t' = t) := fun hh => h hh.symm
  induction m with
  | nil => simp [setdefaultExtend, lookupTenant, hts]
  | cons p rest ih =>
    obtain ⟨k, v⟩ := p
    by_cases hk : k = t'
    · subst hk
      simp [setdefaultExtend, lookupTenant, hts]
    · by_cases hkt : k = t
      · subst hkt
        simp [setdefaultExtend, lookupTenant, hk]
      · simp [setdefaultExtend, lookupTenant, hk, hkt, ih]

theorem lookup_aux (t : String) (ht : t ≠ "") :
    ∀ (rules : List (RuleResource G)) (acc m : TenantMap G),
      get_tenant_rules_aux acc rules = Except.ok m →
      lookupTenant t m = extendEntry (lookupTenant t acc) (tenantResources t rules) := by
  intro rules
  induction rules with
  | nil =>
    intro acc m h
    simp only [get_tenant_rules_aux, Except.ok.injEq] at h
    subst h
    cases ho : lookupTenant t acc <;> simp [extendEntry, tenantResources, ho]
  | cons r rest ih =>
    intro acc m h
    cases hg : get_tenant r with
    | none =>
      simp only [get_tenant_rules_aux, hg] at h
      have hne : ¬ (get_tenant r = some t) := by simp [hg]
      rw [ih acc m h]
      simp [tenantResources, hne]
    | some t' =>
      simp only [get_tenant_rules_aux, hg] at h
      by_cases ht' : t' = ""
      · subst ht'
        rw [if_pos rfl] at h
        have hne : ¬ (get_tenant r = some t) := by
          rw [hg]
          intro hh
          exact ht (Option.some.inj hh).symm
        rw [ih acc m h]
        simp [tenantResources, hne]
      · rw [if_neg ht'] at h
        cases hs : r.spec_groups with
        | none =>
          simp only [hs] at h
          exact absurd h (by simp)
        | some gs =>
          simp only [hs] at h
          by_cases htt : t' = t
          · rw [htt] at hg h
            have hfil : tenantResources t (r :: rest) = r :: tenantResources t rest := by
              simp [tenantResources, hg]
            have hgr : groupsOf r = gs := by simp [groupsOf, hs]
            rw [hfil, ih _ m h, lookupTenant_setdefault_self]
            cases ho : lookupTenant t acc with
            | none => simp [extendEntry, ho, hgr]
            | some v => simp [extendEntry, ho, hgr]
          · have hne : ¬ (get_tenant r = some t) := by
              rw [hg]
              intro hh
              exact htt (Option.some.inj hh)
            have hfil : tenantResources t (r :: rest) = tenantResources t rest := by
              simp [tenantResources, hne]
            have hne2 : t ≠ t' := fun hh => htt hh.symm
            rw [hfil, ih _ m h, lookupTenant_setdefault_other _ hne2]

theorem aux_error_of_missing_groups :
    ∀ (rules : List (RuleResource G)) (r : RuleResource G) (t : String),
      r ∈ rules → get_tenant r = some t → t ≠ "" → r.spec_groups = none →
      ∀ acc, ∃ n, get_tenant_rules_aux acc rules
        = Except.error (AggError.malformedRule n) := by
  intro rules
  induction rules with
  | nil =>
    intro r t hr
    exact absurd hr (List.not_mem_nil r)
  | cons r0 rest ih =>
    intro r t hr h1 h2 h3 acc
    rcases List.mem_cons.mp hr with heq | hmem
    · subst heq
      refine ⟨r.name, ?_⟩
      simp only [get_tenant_rules_aux, h1, if_neg h2, h3]
    · cases hg : get_tenant r0 with
      | none =>
        simp only [get_tenant_rules_aux, hg]
        exact ih r t hmem h1 h2 h3 acc
      | some t0 =>
        by_cases ht0 : t0 = ""
        · simp only [get_tenant_rules_aux, hg, if_pos ht0]
          exact ih r t hmem h1 h2 h3 acc
        · cases hs : r0.spec_groups with
          | none =>
            refine ⟨r0.name, ?_⟩
            simp only [get_tenant_rules_aux, hg, if_neg ht0, hs]
          | some gs =>
            simp only [get_tenant_rules_aux, hg, if_neg ht0, hs]
            exact ih r t hmem h1 h2 h3 _

theorem spec_groups_present_of_ok (rules : List (RuleResource G)) (m : TenantMap G)
    (h : get_tenant_rules rules = Except.ok m) (r : RuleResource G) (t : String)
    (hr : r ∈ rules) (h1 : get_tenant r = some t) (h2 : t ≠ "") :
    r.spec_groups.isSome = true := by
  cases hs : r.spec_groups with
  | some gs => rfl
  | none =>
    obtain ⟨n, hn⟩ := aux_error_of_missing_groups rules r t hr h1 h2 hs []
    rw [get_tenant_rules, hn] at h
    exact absurd h (by simp)

theorem mem_tenantResources {t : String} :
    ∀ {rules : List (RuleResource G)} {r : RuleResource G},
      r ∈ tenantResources t rules → r ∈ rules ∧ get_tenant r = some t := by
  intro rules
  induction rules with
  | nil =>
    intro r hr
    simp [tenantResources] at hr
  | cons r0 rest ih =>
    intro r hr
    by_cases hg : get_tenant r0 = some t
    · rw [tenantResources, if_pos hg] at hr
      rcases List.mem_cons.mp hr with heq | hmem
      · subst heq
        exact ⟨List.mem_cons_self r rest, hg⟩
      · obtain ⟨hm, hgt⟩ := ih hmem
        exact ⟨List.mem_cons_of_mem r0 hm, hgt⟩
    · rw [tenantResources, if_neg hg] at hr
      obtain ⟨hm, hgt⟩ := ih hr
      exact ⟨List.mem_cons_of_mem r0 hm, hgt⟩

theorem aux_filterLabeled :
    ∀ (rules : List (RuleResource G)) (acc : TenantMap G),
      get_tenant_rules_aux acc (filterLabeled rules) = get_tenant_rules_aux acc rules := by
  intro rules
  induction rules with
  | nil =>
    intro acc
    rfl
  | cons r rest ih =>
    intro acc
    cases hg : get_tenant r with
    | none =>
      simp only [filterLabeled, hg, get_tenant_rules_aux]
      exact ih acc
    | some t =>
      simp only [filterLabeled, hg, get_tenant_rules_aux]
      by_cases ht : t = ""
      · simp only [if_pos ht]
        exact ih acc
      · simp only [if_neg ht]
        cases hs : r.spec_groups with
        | none => simp only [hs]
        | some gs =>
          simp only [hs]
          exact ih _

theorem aux_dropEmptyLabeled :
    ∀ (rules : List (RuleResource G)) (acc : TenantMap G),
      get_tenant_rules_aux acc (dropEmptyLabeled rules) = get_tenant_rules_aux acc rules := by
  intro rules
  induction rules with
  | nil =>
    intro acc
    rfl
  | cons r rest ih =>
    intro acc
    by_cases he : get_tenant r = some ""
    · simp only [dropEmptyLabeled, if_pos he, get_tenant_rules_aux, he, if_pos rfl]
      exact ih acc
    · simp only [dropEmptyLabeled, if_neg he]
      cases hg : get_tenant r with
      | none =>
        simp only [get_tenant_rules_aux, hg]
        exact ih acc
      | some t =>
        have ht : ¬ (t = "") := by
          intro hh
          rw [hh] at hg
          exact he hg
        simp only [get_tenant_rules_aux, hg, if_neg ht]
        cases hs : r.spec_groups with
        | none => simp only [hs]
        | some gs =>
          simp only [hs]
          exact ih _

theorem setdefaultExtend_cons_self (k : String) (v : List G) (rest : TenantMap G)
    (gs : List G) :
    setdefaultExtend ((k, v) :: rest) k gs = (k, v ++ gs) :: rest := by
  simp [setdefaultExtend]

theorem setdefaultExtend_cons_other {k t : String} (hk : k ≠ t) (v : List G)
    (rest : TenantMap G) (gs : List G) :
    setdefaultExtend ((k, v) :: rest) t gs = (k, v) :: setdefaultExtend rest t gs := by
  simp [setdefaultExtend, hk]

theorem mem_keys_setdefault (m : TenantMap G) (t t' : String) (gs : List G) :
    t ∈ keys (setdefaultExtend m t' gs) ↔ t ∈ keys m ∨ t = t' := by
  induction m with
  | nil => simp [setdefaultExtend, keys]
  | cons p rest ih =>
    obtain ⟨k, v⟩ := p
    by_cases hk : k = t'
    · subst hk
      rw [setdefaultExtend_cons_self]
      simp only [keys, List.map_cons, List.mem_cons]
      tauto
    · rw [setdefaultExtend_cons_other hk]
      simp only [keys, List.map_cons, List.mem_cons] at ih ⊢
      rw [ih]
      tauto

theorem nodup_keys_setdefault (m : TenantMap G) (t : String) (gs : List G)
    (h : (keys m).Nodup) : (keys (setdefaultExtend m t gs)).Nodup := by
  induction m with
  | nil => simp [setdefaultExtend, keys]
  | cons p rest ih =>
    obtain ⟨k, v⟩ := p
    simp only [keys, List.map_cons, List.nodup_cons] at h
    obtain ⟨hk1, hk2⟩ := h
    by_cases hk : k = t
    · subst hk
      rw [setdefaultExtend_cons_self]
      simp only [keys, List.map_cons, List.nodup_cons]
      exact ⟨hk1, hk2⟩
    · rw [setdefaultExtend_cons_other hk]
      simp only [keys, List.map_cons, List.nodup_cons]
      refine ⟨?_, ih hk2⟩
      intro hmem
      rcases (mem_keys_setdefault rest k t gs).mp hmem with hh | hh
      · exact hk1 hh
      · exact hk hh

theorem nodup_keys_aux :
    ∀ (rules : List (RuleResource G)) (acc m : TenantMap G),
      (keys acc).Nodup → get_tenant_rules_aux acc rules = Except.ok m →
      (keys m).Nodup := by
  intro rules
  induction rules with
  | nil =>
    intro acc m ha h
    simp only [get_tenant_rules_aux, Except.ok.injEq] at h
    subst h
    exact ha
  | cons r rest ih =>
    intro acc m ha h
    cases hg : get_tenant r with
    | none =>
      simp only [get_tenant_rules_aux, hg] at h
      exact ih acc m ha h
    | some t =>
      simp only [get_tenant_rules_aux, hg] at h
      by_cases ht : t = ""
      · rw [if_pos ht] at h
        exact ih acc m ha h
      · rw [if_neg ht] at h
        cases hs : r.spec_groups with
        | none =>
          simp only [hs] at h
          exact absurd h (by simp)
        | some gs =>
          simp only [hs] at h
          exact ih _ m (nodup_keys_setdefault acc t gs ha) h

theorem mem_keys_aux :
    ∀ (rules : List (RuleResource G)) (acc m : TenantMap G),
      get_tenant_rules_aux acc rules = Except.ok m →
      ∀ t, t ∈ keys m ↔ t ∈ keys acc ∨ t ∈ truthyTenants rules := by
  intro rules
  induction rules with
  | nil =>
    intro acc m h t
    simp only [get_tenant_rules_aux, Except.ok.injEq] at h
    subst h
    simp [truthyTenants]
  | cons r rest ih =>
    intro acc m h t
    cases hg : get_tenant r with
    | none =>
      simp only [get_tenant_rules_aux, hg] at h
      rw [ih acc m h t]
      simp [truthyTenants, hg]
    | some t' =>
      simp only [get_tenant_rules_aux, hg] at h
      by_cases ht' : t' = ""
      · rw [if_pos ht'] at h
        rw [ih acc m h t]
        simp [truthyTenants, hg, ht']
      · rw [if_neg ht'] at h
        cases hs : r.spec_groups with
        | none =>
          simp only [hs] at h
          exact absurd h (by simp)
        | some gs =>
          simp only [hs] at h
          rw [ih _ m h t, mem_keys_setdefault]
          simp only [truthyTenants, hg, if_neg ht', List.mem_cons]
          constructor
          · intro hh
            rcases hh with (hh | hh) | hh
            · exact Or.inl hh
            · exact Or.inr (Or.inl hh)
            · exact Or.inr (Or.inr hh)
          · intro hh
            rcases hh with hh | hh | hh
            · exact Or.inl (Or.inl hh)
            · exact Or.inl (Or.inr hh)
            · exact Or.inr hh

theorem empty_not_mem_truthyTenants :
    ∀ (rules : List (RuleResource G)), "" ∉ truthyTenants rules := by
  intro rules
  induction rules with
  | nil => simp [truthyTenants]
  | cons r rest ih =>
    cases hg : get_tenant r with
    | none =>
      simp only [truthyTenants, hg]
      exact ih
    | some t =>
      by_cases ht : t = ""
      · simp only [truthyTenants, hg, if_pos ht]
        exact ih
      · simp only [truthyTenants, hg, if_neg ht, List.mem_cons]
        intro hh
        rcases hh with hh | hh
        · exact ht hh.symm
        · exact ih hh

/- ### Helper lemmas about the publish loop -/

theorem countRemove_append (xs ys : List (Action G)) :
    countRemove (xs ++ ys) = countRemove xs + countRemove ys := by
  induction xs with
  | nil => simp [countRemove]
  | cons a rest ih =>
    cases a <;> (simp [countRemove, ih]; try omega)

theorem countAdd_append (xs ys : List (Action G)) :
    countAdd (xs ++ ys) = countAdd xs + countAdd ys := by
  induction xs with
  | nil => simp [countAdd]
  | cons a rest ih =>
    cases a <;> (simp [countAdd, ih]; try omega)

theorem countRemove_tryBody (oracle : Oracle G) (t : String) (gs : List G) :
    countRemove (tryBody oracle t gs).1 = 0 := by
  unfold tryBody
  split_ifs <;> rfl

theorem countAdd_tryBody (oracle : Oracle G) (t : String) (gs : List G) :
    countAdd (tryBody oracle t gs).1 = 1 := by
  unfold tryBody
  split_ifs <;> rfl

theorem countRemove_publishTenant (oracle : Oracle G) (t : String) (gs : List G) :
    countRemove (publishTenant oracle t gs).1 = 1 := by
  show countRemove ((tryBody oracle t gs).1 ++ [Action.contextRemove]) = 1
  rw [countRemove_append, countRemove_tryBody]
  rfl

theorem countAdd_publishTenant (oracle : Oracle G) (t : String) (gs : List G) :
    countAdd (publishTenant oracle t gs).1 = 1 := by
  show countAdd ((tryBody oracle t gs).1 ++ [Action.contextRemove]) = 1
  rw [countAdd_append, countAdd_tryBody]
  rfl

theorem countRemove_eq_countAdd_publishAll (oracle : Oracle G) :
    ∀ ts : List (String × List G),
      countRemove (publishAll oracle ts).1 = countAdd (publishAll oracle ts).1 := by
  intro ts
  induction ts with
  | nil => rfl
  | cons p rest ih =>
    obtain ⟨t, gs⟩ := p
    cases hp : (publishTenant oracle t gs).2 with
    | true =>
      simp only [publishAll, hp, if_true, countRemove_append, countAdd_append, ih,
        countRemove_publishTenant, countAdd_publishTenant]
    | false =>
      simp only [publishAll, hp, Bool.false_eq_true, if_false,
        countRemove_publishTenant, countAdd_publishTenant]

/- ### Concrete inputs used by witnesses and counterexamples -/

/-- The scenario of section 8 of the spec, with groups coded as the
numbers 1, 2, 3: resources a and c are labeled tenant t1, resource b
has an empty labels dictionary. -/
def rulesScenario : List (RuleResource Nat) :=
  [RuleResource.mk "a" (some [("tenant", "t1")]) (some [1]),
   RuleResource.mk "b" (some []) (some [2]),
   RuleResource.mk "c" (some [("tenant", "t1")]) (some [3])]

/-- A resource whose tenant label is present but empty and whose groups
field is also present. -/
def emptyLabelWithGroups : RuleResource Nat :=
  RuleResource.mk "a" (some [("tenant", "")]) (some [7])

/-- A resource whose tenant label is present but empty and whose groups
field is missing. -/
def emptyLabelNoGroups : RuleResource Nat :=
  RuleResource.mk "a" (some [("tenant", "")]) none

/-- A resource with a nonempty tenant label and a missing groups
field. -/
def badRule : RuleResource Nat :=
  RuleResource.mk "bad" (some [("tenant", "t1")]) none

/-- An oracle for the publish loop under which every external call
succeeds except rule submission, which raises. -/
def failingSubmission : Oracle Nat
  | Action.setRules _ _ => false
  | _ => true

end ObsctlReloader

namespace ObsctlReloader

variable {G : Type}

/- ### The claims -/

/-- Claim C1: for every input list and every tenant t, a successful
aggregation gives t a bundle whose groups list is exactly the
concatenation, in input order and with duplicates preserved, of the
spec.groups lists of the resources labeled t (and no entry at all when
no resource is labeled t); in particular its length is the sum of those
lists lengths.  A tenant name is a nonempty string: the empty label
value is rejected by the loop and is not a tenant (see claim C10).  The
third conjunct records that the groups field of every resource labeled
t is really present, so reading it with a default is faithful. -/
theorem aggregator_bundle_is_ordered_concat (rules : List (RuleResource G))
    (m : TenantMap G) (t : String)
    (h : get_tenant_rules rules = Except.ok m) (ht : t ≠ "") :
    lookupTenant t m = tenantConcat t rules ∧
    ((lookupTenant t m).getD []).length
      = ((tenantResources t rules).map (fun r => (groupsOf r).length)).sum ∧
    ∀ r ∈ tenantResources t rules, r.spec_groups.isSome = true := by
  have hl2 : lookupTenant t m = extendEntry none (tenantResources t rules) :=
    lookup_aux t ht rules [] m h
  refine ⟨?_, ?_, ?_⟩
  · rw [hl2]
    cases hrs : tenantResources t rules with
    | nil => simp [extendEntry, tenantConcat, hrs]
    | cons r rs => simp [extendEntry, tenantConcat, hrs]
  · rw [hl2]
    cases hrs : tenantResources t rules with
    | nil => simp [extendEntry]
    | cons r rs =>
      simp [extendEntry, List.length_flatten, List.map_map, Function.comp_def]
  · intro r hr
    obtain ⟨hmem, hgt⟩ := mem_tenantResources hr
    exact spec_groups_present_of_ok rules m h r t hmem hgt ht

/-- Witness for claim C1 at the scenario of section 8 of the spec:
tenant t1 gets the bundle [1, 3]. -/
theorem aggregator_bundle_is_ordered_concat_witness :
    lookupTenant "t1" [("t1", ([1, 3] : List Nat))] = tenantConcat "t1" rulesScenario ∧
    ((lookupTenant "t1" [("t1", ([1, 3] : List Nat))]).getD []).length
      = ((tenantResources "t1" rulesScenario).map (fun r => (groupsOf r).length)).sum ∧
    ∀ r ∈ tenantResources "t1" rulesScenario, r.spec_groups.isSome = true :=
  aggregator_bundle_is_ordered_concat rulesScenario [("t1", [1, 3])] "t1"
    (by rfl) (by decide)

/-- Claim C2: a resource without a tenant label is invisible to the
Aggregator: removing every unlabeled resource leaves the result
(including its success or failure) unchanged, and prepending a resource
with no labels dictionary, or with an empty labels dictionary, to any
input leaves the result unchanged. -/
theorem unlabeled_resources_dropped (rules : List (RuleResource G))
    (name : String) (gs : Option (List G)) :
    get_tenant_rules rules = get_tenant_rules (filterLabeled rules) ∧
    get_tenant_rules (RuleResource.mk name none gs :: rules) = get_tenant_rules rules ∧
    get_tenant_rules (RuleResource.mk name (some []) gs :: rules) = get_tenant_rules rules :=
  ⟨(aux_filterLabeled rules []).symm, rfl, rfl⟩

/-- Counterexample to claim C3 as stated: this resource carries a
tenant label (the label is present, its value is the empty string) and
has no spec.groups field, yet the aggregation succeeds with an empty
mapping instead of failing with MalformedRule, because the loop rejects
the falsy label value before ever reading spec.groups. -/
theorem missing_groups_counterexample :
    (get_tenant emptyLabelNoGroups).isSome = true ∧
    emptyLabelNoGroups.spec_groups = none ∧
    get_tenant_rules [emptyLabelNoGroups] = Except.ok [] := by
  refine ⟨by decide, by rfl, by rfl⟩

/-- Claim C3 (amended): an input containing a resource whose tenant
label is present and nonempty but whose spec.groups field is missing
makes the whole aggregation fail with a MalformedRule error. -/
theorem missing_groups_fails_aggregation (rules : List (RuleResource G))
    (r : RuleResource G) (t : String) (hr : r ∈ rules)
    (h1 : get_tenant r = some t) (h2 : t ≠ "") (h3 : r.spec_groups = none) :
    ∃ n, get_tenant_rules rules = Except.error (AggError.malformedRule n) :=
  aux_error_of_missing_groups rules r t hr h1 h2 h3 []

/-- Witness for the amended claim C3: one resource with tenant t1 and
no groups field makes the aggregation fail. -/
theorem missing_groups_fails_aggregation_witness :
    ∃ n, get_tenant_rules [badRule] = Except.error (AggError.malformedRule n) :=
  missing_groups_fails_aggregation [badRule] badRule "t1" (by decide) (by decide)
    (by decide) (by decide)

/-- Claim C4: whatever the oracle makes the external calls do, every
tenant iteration attempts the context removal exactly once (the finally
block runs on every exit path of the try block), and across a whole
cycle the number of context removals equals the number of context adds,
that is, one removal for every tenant whose iteration was entered. -/
theorem context_remove_once_per_tenant (oracle : Oracle G)
    (ts : List (String × List G)) (t : String) (gs : List G) :
    countRemove (publishTenant oracle t gs).1 = 1 ∧
    countRemove (publishAll oracle ts).1 = countAdd (publishAll oracle ts).1 :=
  ⟨countRemove_publishTenant oracle t gs, countRemove_eq_countAdd_publishAll oracle ts⟩

/-- Counterexample to claim C5 as stated: two tenants, rule submission
raises.  The trace of the cycle stops after the first tenant (its
finally block did run), the second tenant is never logged in and no
second context add happens: the failure is not caught at the iteration
boundary, because the try statement in main has a finally clause but no
except clause. -/
theorem tenant_failure_not_caught_counterexample :
    publishAll failingSubmission [("t1", [1]), ("t2", [2])]
      = ([Action.contextAdd, Action.login "t1", Action.contextSwitch "t1",
          Action.setRules "t1" [1], Action.contextRemove], false) ∧
    countLogin "t2" (publishAll failingSubmission [("t1", [1]), ("t2", [2])]).1 = 0 ∧
    countAdd (publishAll failingSubmission [("t1", [1]), ("t2", [2])]).1 = 1 := by
  decide

/-- Claim C5 (amended): a failure during one tenant iteration still
runs that tenant's context removal exactly once, but it is not caught
at the tenant-iteration boundary: the exception propagates, the cycle
stops, and the remaining tenants are not processed. -/
theorem tenant_failure_aborts_cycle (oracle : Oracle G)
    (t : String) (gs : List G) (rest : List (String × List G))
    (h : (publishTenant oracle t gs).2 = false) :
    publishAll oracle ((t, gs) :: rest) = ((publishTenant oracle t gs).1, false) ∧
    countRemove (publishTenant oracle t gs).1 = 1 := by
  constructor
  · simp [publishAll, h]
  · exact countRemove_publishTenant oracle t gs

/-- Witness for the amended claim C5: submission raises for tenant t1,
so the cycle ends with the trace of t1 alone. -/
theorem tenant_failure_aborts_cycle_witness :
    publishAll failingSubmission [("t1", ([1] : List Nat)), ("t2", [2])]
      = ((publishTenant failingSubmission "t1" [1]).1, false) ∧
    countRemove (publishTenant failingSubmission "t1" [1]).1 = 1 :=
  tenant_failure_aborts_cycle failingSubmission "t1" [1] [("t2", [2])] (by decide)

/-- Counterexample to claim C6 as stated: a resource whose tenant label
value is the empty string carries a tenant label, so the claim counts
one distinct tenant value, yet the successful output mapping has zero
keys. -/
theorem keys_count_counterexample :
    get_tenant_rules [emptyLabelWithGroups] = Except.ok [] ∧
    (resultKeys (get_tenant_rules [emptyLabelWithGroups])).length = 0 ∧
    ((labeledTenants [emptyLabelWithGroups]).dedup).length = 1 := by
  refine ⟨by rfl, by rfl, by rfl⟩

/-- Claim C6 (amended): on a successful aggregation every key of the
output mapping is the tenant value of some labeled resource with a
nonempty label, and the number of keys equals the number of distinct
nonempty tenant values among the labeled resources. -/
theorem aggregator_keys_distinct_tenants (rules : List (RuleResource G))
    (m : TenantMap G) (h : get_tenant_rules rules = Except.ok m) :
    (∀ t ∈ keys m, t ∈ truthyTenants rules) ∧
    (keys m).length = ((truthyTenants rules).dedup).length := by
  have hmem : ∀ t, t ∈ keys m ↔ t ∈ truthyTenants rules := by
    intro t
    rw [mem_keys_aux rules [] m h t]
    simp [keys]
  constructor
  · intro t htm
    exact (hmem t).mp htm
  · have hnd : (keys m).Nodup := nodup_keys_aux rules [] m (by simp [keys]) h
    have hnd2 : ((truthyTenants rules).dedup).Nodup := List.nodup_dedup _
    have hperm : (keys m).Perm ((truthyTenants rules).dedup) := by
      rw [List.perm_ext_iff_of_nodup hnd hnd2]
      intro a
      rw [hmem a, List.mem_dedup]
    exact hperm.length_eq

/-- Witness for the amended claim C6 at the scenario of section 8: one
key, one distinct nonempty tenant value. -/
theorem aggregator_keys_distinct_tenants_witness :
    (∀ t ∈ keys [("t1", ([1, 3] : List Nat))], t ∈ truthyTenants rulesScenario) ∧
    (keys [("t1", ([1, 3] : List Nat))]).length
      = ((truthyTenants rulesScenario).dedup).length :=
  aggregator_keys_distinct_tenants rulesScenario [("t1", [1, 3])] (by rfl)

/-- Claim C7: the Aggregator is a pure function of its input list; the
embedding is a Lean function of the list alone (no other state appears
in its type), so two runs on the same list are definitionally the same
output. -/
theorem aggregator_deterministic (rules : List (RuleResource G)) :
    get_tenant_rules rules = get_tenant_rules rules := rfl

/-- Claim C8: the empty input list yields a successful empty mapping,
not an error. -/
theorem aggregator_empty_input :
    get_tenant_rules ([] : List (RuleResource G)) = Except.ok [] := rfl

/-- Claim C9: the Reader fails with sourceUnavailable when the external
listing call fails (non-zero exit or timeout, both raising out of the
subprocess call), fails with malformedResponse when the output is not
valid JSON or lacks the top-level items field, and otherwise returns
the parsed items list.  The four cases cover every possible call
outcome. -/
theorem reader_error_taxonomy (items : List (RuleResource G)) :
    get_prometheus_rules (OcResult.failure : OcResult G)
      = Except.error ReaderError.sourceUnavailable ∧
    get_prometheus_rules (OcResult.success JsonDoc.invalid : OcResult G)
      = Except.error ReaderError.malformedResponse ∧
    get_prometheus_rules (OcResult.success (JsonDoc.object none) : OcResult G)
      = Except.error ReaderError.malformedResponse ∧
    get_prometheus_rules (OcResult.success (JsonDoc.object (some items)))
      = Except.ok items :=
  ⟨rfl, rfl, rfl, rfl⟩

/-- Claim C10: a resource whose tenant label is present but equal to
the empty string is treated exactly like an unlabeled resource:
removing every such resource leaves the aggregation result unchanged,
and the output mapping never has the empty string as a key. -/
theorem empty_tenant_label_dropped (rules : List (RuleResource G)) :
    get_tenant_rules rules = get_tenant_rules (dropEmptyLabeled rules) ∧
    "" ∉ resultKeys (get_tenant_rules rules) := by
  constructor
  · exact (aux_dropEmptyLabeled rules []).symm
  · cases he : get_tenant_rules rules with
    | error e => simp [resultKeys]
    | ok m =>
      simp only [resultKeys]
      intro hmem
      rcases (mem_keys_aux rules [] m he "").mp hmem with hh | hh
      · simp [keys] at hh
      · exact empty_not_mem_truthyTenants rules hh

end ObsctlReloader
